import Mathlib

/-!
Verification development for the `rapel` chunked-HTTP-downloader repository.

The Go sources are shallowly embedded as executable Lean definitions:

* `internal/downloader/state.go` — `ChunkInfo`, `State`, `NewState`,
  `MarkChunkCompleted`, `MarkPostPartCompleted`, `UpdateChunkProgress`.
* `internal/downloader/downloader.go` — the state-resolution logic of
  `Download` (`resolveState`) and the resume logic of `downloadChunk`
  (`resumeOffset`, `downloadChunkAttempt`).
* `internal/http/client.go` — the byte-limit-enforcing `downloadRangeOnce`
  (the variant whose caller performs the retries, matching the retry loop
  in `downloadChunk`), embedded as `readLoop` / `downloadRangeOnce`.
* `internal/merger/merger.go` — `extractBasename`, `groupFilesByBasename`
  and the multi-group driving loop of `Merge`.

Go `int64` values are modelled as `Int`; Go integer division truncates
toward zero, hence `Int.tdiv`.  File contents are modelled as `List Nat`
(byte lists) and the network/filesystem effects of a single chunk attempt
are made explicit (`ChunkDisk`, a `fetch` oracle).
-/

namespace Rapel

/-- `ChunkInfo` from `internal/downloader/state.go`: the persisted state of a
single chunk.  Field names follow the Go struct. -/
structure ChunkInfo where
  Index : Int
  Start : Int
  End : Int
  Downloaded : Int
  Completed : Bool
  PostPartCompleted : Bool
deriving DecidableEq

/-- Placeholder chunk used for out-of-range list reads in specifications. -/
def defaultChunk : ChunkInfo :=
  { Index := 0, Start := 0, End := 0, Downloaded := 0,
    Completed := false, PostPartCompleted := false }

/-- `State` from `internal/downloader/state.go` (the JSON-serialized fields;
the mutex and file path are irrelevant to the claims).  `FilenamePfx` models
the Go field `FilenamePrefix`. -/
structure State where
  URL : String
  TotalSize : Int
  ChunkSize : Int
  FilenamePfx : String
  Chunks : List ChunkInfo
  CompletedCount : Int
deriving DecidableEq

/-- `NewState` from `internal/downloader/state.go`:
`numChunks := (totalSize + chunkSize - 1) / chunkSize` (Go `int64` division,
i.e. truncation toward zero), and chunk `i` gets
`start := i*chunkSize`, `end := start + chunkSize - 1` capped at
`totalSize - 1`. -/
def NewState (url : String) (totalSize chunkSize : Int) (pfx : String) : State :=
  let numChunks : Int := (totalSize + chunkSize - 1).tdiv chunkSize
  let chunks : List ChunkInfo := (List.range numChunks.toNat).map fun (i : Nat) =>
    let start : Int := (i : Int) * chunkSize
    let end0 : Int := start + chunkSize - 1
    { Index := (i : Int), Start := start,
      End := if end0 ≥ totalSize then totalSize - 1 else end0,
      Downloaded := 0, Completed := false, PostPartCompleted := false }
  { URL := url, TotalSize := totalSize, ChunkSize := chunkSize,
    FilenamePfx := pfx, Chunks := chunks, CompletedCount := 0 }

/-- The chunk a state holds at list position `i` (out-of-range reads give
`defaultChunk`). -/
def chunkAt (s : State) (i : Nat) : ChunkInfo := s.Chunks.getD i defaultChunk

/-- `MarkChunkCompleted` from `internal/downloader/state.go`: bounds-check
the index, then set `Completed`/`Downloaded` and bump `CompletedCount` only
if the chunk was not already completed. -/
def MarkChunkCompleted (s : State) (index downloaded : Int) : State :=
  if index < 0 ∨ (s.Chunks.length : Int) ≤ index then s
  else
    let i := index.toNat
    let chunk := s.Chunks.getD i defaultChunk
    if chunk.Completed then s
    else
      { s with
        Chunks := s.Chunks.set i { chunk with Completed := true, Downloaded := downloaded },
        CompletedCount := s.CompletedCount + 1 }

/-- `MarkPostPartCompleted` from `internal/downloader/state.go`: bounds-check
the index, then assign `PostPartCompleted := success` unconditionally. -/
def MarkPostPartCompleted (s : State) (index : Int) (success : Bool) : State :=
  if index < 0 ∨ (s.Chunks.length : Int) ≤ index then s
  else
    let i := index.toNat
    let chunk := s.Chunks.getD i defaultChunk
    { s with Chunks := s.Chunks.set i { chunk with PostPartCompleted := success } }

/-- `UpdateChunkProgress` from `internal/downloader/state.go`. -/
def UpdateChunkProgress (s : State) (index downloaded : Int) : State :=
  if index < 0 ∨ (s.Chunks.length : Int) ≤ index then s
  else
    let i := index.toNat
    let chunk := s.Chunks.getD i defaultChunk
    { s with Chunks := s.Chunks.set i { chunk with Downloaded := downloaded } }

/-- The synchronized mutation operations of `State` (the only ways workers
touch chunk fields). -/
inductive StateOp where
  | markChunk (index downloaded : Int)
  | markPostPart (index : Int) (success : Bool)
  | updateProgress (index downloaded : Int)
deriving DecidableEq

/-- Apply one state operation. -/
def applyOp (s : State) : StateOp → State
  | .markChunk i d => MarkChunkCompleted s i d
  | .markPostPart i b => MarkPostPartCompleted s i b
  | .updateProgress i d => UpdateChunkProgress s i d

/-- Apply a sequence of state operations in order. -/
def applyOps (s : State) (ops : List StateOp) : State := ops.foldl applyOp s

/-- Apply a sequence of `MarkChunkCompleted` calls (index, downloaded). -/
def applyMarks (s : State) (ops : List (Int × Int)) : State :=
  ops.foldl (fun t q => MarkChunkCompleted t q.1 q.2) s

/-- The counter invariant: `CompletedCount` equals the number of chunks whose
`Completed` flag is set. -/
def stateInv (s : State) : Prop :=
  s.CompletedCount = (s.Chunks.countP (fun c => c.Completed) : Int)

instance (s : State) : Decidable (stateInv s) := by
  unfold stateInv; infer_instance

/-- The state-resolution logic at the start of `Download`
(`internal/downloader/downloader.go`, lines 66–95): load saved state unless
`force`; create a fresh state if none; then compare only URL and total size
against the request, erroring on mismatch unless `force`. -/
def resolveState (force : Bool) (saved : Option State) (url : String)
    (totalSize chunkSize : Int) (pfx : String) : Except String State :=
  let loaded := if force then none else saved
  let st := match loaded with
    | none => NewState url totalSize chunkSize pfx
    | some st => st
  if st.URL ≠ url ∨ st.TotalSize ≠ totalSize then
    if force then Except.ok (NewState url totalSize chunkSize pfx)
    else Except.error "existing state does not match URL or size, use --force to restart"
  else Except.ok st

/-! ## Resumable range fetcher (`internal/http/client.go`) -/

/-- The errors `downloadRangeOnce` can report (the incomplete-transfer error
is a distinct case, carrying the expected and received byte counts as in the
Go error message). -/
inductive FetchError where
  | statusError (code : Nat)
  | incompleteTransfer (expected got : Int)
deriving DecidableEq

/-- The body-streaming loop of `downloadRangeOnce`: while `totalRead <
expectedBytes`, read at most `min(32*1024, expectedBytes - totalRead)` bytes
from the response body into the buffer, write them to the sink, and stop on
EOF.  The response body is modelled as the byte list still unread; a read
returns as many of the requested bytes as the body still has.  Returns the
bytes written to the sink. -/
def readLoop (expected : Nat) (body : List Nat) (totalRead : Nat) : List Nat :=
  if h : totalRead < expected then
    match body with
    | [] => []
    | x :: xs =>
      let n := min (min 32768 (expected - totalRead)) (xs.length + 1)
      (x :: xs).take n ++ readLoop expected ((x :: xs).drop n) (totalRead + n)
  else []
termination_by expected - totalRead
decreasing_by omega

/-- `downloadRangeOnce` from `internal/http/client.go` (the byte-limit
enforcing variant, lines 242–304 of the file: the caller performs retries):
reject unexpected status codes, stream at most `end - start + 1` bytes to the
sink, and report a distinct incomplete-transfer error when the stream ended
short. -/
def downloadRangeOnce (start endB : Int) (status : Nat) (body : List Nat) :
    Except FetchError (List Nat) :=
  if status ≠ 206 ∧ status ≠ 200 then Except.error (.statusError status)
  else
    let expected : Int := endB - start + 1
    let written := readLoop expected.toNat body 0
    if (written.length : Int) ≠ expected then
      Except.error (.incompleteTransfer expected written.length)
    else Except.ok written

/-! ## One attempt of `downloadChunk` (`internal/downloader/downloader.go`) -/

/-- The on-disk artifacts of one chunk: the `.tmp` partial file and the
`.part` complete file (`none` = file absent). -/
structure ChunkDisk where
  tmp : Option (List Nat)
  part : Option (List Nat)
deriving DecidableEq

/-- The resume-position computation of `downloadChunk`:
`resumeStart := chunk.Start + currentSize`, clamped to `chunk.End + 1`. -/
def resumeOffset (chunk : ChunkInfo) (currentSize : Int) : Int :=
  if chunk.Start + currentSize > chunk.End then chunk.End + 1
  else chunk.Start + currentSize

/-- The result of one attempt of `downloadChunk`: the range request it issued
(if any), the resulting on-disk artifacts, and whether the attempt
succeeded. -/
structure AttemptResult where
  request : Option (Int × Int)
  disk : ChunkDisk
  ok : Bool
deriving DecidableEq

/-- One attempt of `downloadChunk` (`internal/downloader/downloader.go`,
lines 259–305), with `OpenChunkFile` (`internal/downloader/chunk.go`)
inlined:

* if the `.part` file exists, `OpenChunkFile` reports "chunk already
  complete" and `downloadChunk` returns success without touching the network;
* otherwise the current `.tmp` size is the resume point; if
  `resumeStart <= chunk.End` the remaining range is fetched (the `fetch`
  oracle returns the bytes the transfer appended to the sink and whether
  `DownloadRange` returned without error), and on success `Finalize` renames
  `.tmp` to `.part` unmodified;
* if nothing remains to fetch, `Finalize` promotes the `.tmp` file as-is. -/
def downloadChunkAttempt (chunk : ChunkInfo) (d : ChunkDisk)
    (fetch : Int → Int → List Nat × Bool) : AttemptResult :=
  match d.part with
  | some _ => { request := none, disk := d, ok := true }
  | none =>
    let cur := d.tmp.getD []
    let rs := resumeOffset chunk (cur.length : Int)
    if rs ≤ chunk.End then
      let fr := fetch rs chunk.End
      if fr.2 then
        { request := some (rs, chunk.End),
          disk := { tmp := none, part := some (cur ++ fr.1) }, ok := true }
      else
        { request := some (rs, chunk.End),
          disk := { tmp := some (cur ++ fr.1), part := none }, ok := false }
    else
      { request := none, disk := { tmp := none, part := some cur }, ok := true }

/-! ## Reassembly engine (`internal/merger/merger.go`)

String manipulation is carried out on `List Char` (Lean's `String` is a
structure over `List Char`); filenames cross the boundary via `String.toList`
and `String.mk`. -/

/-- `filepath.Base`: the part of the path after the last `/`. -/
def afterLastSlash (cs : List Char) : List Char :=
  cs.foldl (fun acc c => if c = '/' then [] else acc ++ [c]) []

/-- Split a character list around its last `.`: `some (before, after)`, or
`none` when no dot occurs. -/
def splitLastDot : List Char → Option (List Char × List Char)
  | [] => none
  | c :: cs =>
    match splitLastDot cs with
    | some (b, d) => some (c :: b, d)
    | none => if c = '.' then some ([], cs) else none

/-- `extractBasename` from `internal/merger/merger.go`: take the base of the
path and match it against the anchored pattern `(.+?)\.(\d+)\.part` (a
non-greedy nonempty basename, a dot, one or more digits, and the `.part`
suffix), returning the basename capture or `""` when the pattern does not
match.  Because digits cannot contain a dot, the non-greedy capture splits
the stem at its last dot. -/
def extractBasename (partFile : String) : String :=
  let name := afterLastSlash partFile.toList
  if 5 ≤ name.length ∧ name.drop (name.length - 5) = ".part".toList then
    let stem := name.take (name.length - 5)
    match splitLastDot stem with
    | some (b, digits) =>
      if b ≠ [] ∧ digits ≠ [] ∧ digits.all Char.isDigit then String.mk b else ""
    | none => ""
  else ""

/-- Append a file to its basename's group, keeping first-seen group order. -/
def insertGroup : List (String × List String) → String → String → List (String × List String)
  | [], b, f => [(b, [f])]
  | (k, fs) :: rest, b, f =>
    if k = b then (k, fs ++ [f]) :: rest else (k, fs) :: insertGroup rest b f

/-- `groupFilesByBasename` from `internal/merger/merger.go`: group the
matched files by extracted basename, dropping files whose name does not
parse. -/
def groupFilesByBasename (partFiles : List String) : List (String × List String) :=
  partFiles.foldl
    (fun groups f =>
      let b := extractBasename f
      if b = "" then groups else insertGroup groups b f)
    []

/-- Byte-wise lexicographic comparison on character lists (the order used by
Go's `sort.Strings`). -/
def charListLe : List Char → List Char → Bool
  | [], _ => true
  | _ :: _, [] => false
  | a :: as, b :: bs =>
    if a.toNat < b.toNat then true
    else if b.toNat < a.toNat then false
    else charListLe as bs

/-- Insert into a sorted list of strings. -/
def insertSorted (s : String) : List String → List String
  | [] => [s]
  | x :: xs => if charListLe s.toList x.toList then s :: x :: xs else x :: insertSorted s xs

/-- Ascending lexicographic sort of strings (`sort.Strings`). -/
def sortStrings (l : List String) : List String := l.foldr insertSorted []

/-- The multi-group loop of `Merge` (`internal/merger/merger.go`, lines
79–86): merge each basename group in ascending order; a `mergeGroup` failure
returns that error immediately.  `ok b` abstracts whether `mergeGroup b`
succeeds (its file I/O).  Returns the basenames whose merge completed and the
first failing basename, if any. -/
def mergeAllLoop (ok : String → Bool) : List String → List String × Option String
  | [] => ([], none)
  | b :: rest =>
    if ok b then
      let r := mergeAllLoop ok rest
      (b :: r.1, r.2)
    else ([], some b)

/-- `Merge` from `internal/merger/merger.go`: glob files are given as
`files`; `ok b` abstracts the success of `mergeGroup b`.  Returns the
basenames merged into outputs and the error, if any:

* no files is an error;
* an explicit output name merges that single group;
* otherwise a single auto-detected group is merged, and with multiple groups
  each is merged by `mergeAllLoop` in ascending basename order. -/
def Merge (output : String) (ok : String → Bool) (files : List String) :
    List String × Option String :=
  if files.isEmpty then ([], some "no files match pattern")
  else
    let groups := groupFilesByBasename files
    if output ≠ "" then
      if ok output then ([output], none) else ([], some output)
    else if groups.length = 0 then ([], some "no valid chunk files found")
    else if groups.length = 1 then
      let b := (groups.headD ("", [])).1
      if ok b then ([b], none) else ([], some b)
    else
      mergeAllLoop ok (sortStrings (groups.map fun g => g.1))

/-! ## Helper lemmas -/

theorem getD_set_self {α : Type} (l : List α) (j : Nat) (x d : α) (h : j < l.length) :
    (l.set j x).getD j d = x := by
  simp [List.getD_eq_getElem?_getD, List.getElem?_set, h]

theorem getD_set_ne {α : Type} (l : List α) (i j : Nat) (x d : α) (h : j ≠ i) :
    (l.set j x).getD i d = l.getD i d := by
  simp [List.getD_eq_getElem?_getD, List.getElem?_set, h]

/-! ## C7: no input validation in planning -/

/-- Claim C7 counterexample: `NewState` with `totalSize = 0` and
`chunkSize = 1000` silently returns a state with an empty chunk plan;
`NewState` has no error path at all, so planning with non-positive sizes
does not fail with a validation error. -/
theorem NewState_zero_total_silent_empty_plan_cex :
    (NewState "u" 0 1000 "p").Chunks = [] ∧ (NewState "u" 0 1000 "p").TotalSize = 0 := by
  constructor <;> rfl

/-- Claim C7 amended: planning with `totalSize <= 0` (and a positive chunk
size small enough that the chunk-count numerator stays non-negative, as at
`totalSize = 0`) yields a silent empty plan — no validation error is raised
anywhere. -/
theorem NewState_nonpositive_total_empty_plan (u p : String) (t c : Int)
    (ht : t ≤ 0) (hc : 0 < c) (hn : 0 ≤ t + c - 1) :
    (NewState u t c p).Chunks = [] := by
  have htd : (t + c - 1).tdiv c = (t + c - 1) / c := Int.tdiv_eq_ediv hn (le_of_lt hc)
  have h0 : (t + c - 1) / c = 0 := Int.ediv_eq_zero_of_lt hn (by omega)
  simp [NewState, htd, h0]

/-- Witness for the amended C7 theorem at `totalSize = 0`, `chunkSize = 1000`. -/
theorem NewState_nonpositive_total_empty_plan_witness :
    (0 : Int) ≤ 0 ∧ (0 : Int) < 1000 ∧ (NewState "v" 0 1000 "q").Chunks = [] :=
  ⟨le_refl 0, by decide,
    NewState_nonpositive_total_empty_plan "v" "q" 0 1000 (by decide) (by decide) (by decide)⟩

/-! ## C9: the reload mismatch check ignores the chunk size -/

/-- Claim C9: on reload (no `--force`), `Download` compares only the saved
URL and total size with the request; a saved state whose chunk size differs
from the requested one is accepted unchanged — no error, no re-plan, the
saved plan's chunking wins. -/
theorem resolveState_accepts_chunk_size_mismatch (saved : State) (url pfx : String)
    (totalSize chunkSize : Int)
    (h1 : saved.URL = url) (h2 : saved.TotalSize = totalSize)
    (h3 : saved.ChunkSize ≠ chunkSize) :
    resolveState false (some saved) url totalSize chunkSize pfx = Except.ok saved := by
  unfold resolveState
  simp [h1, h2]

/-- Witness for C9: a saved state planned with chunk size 500 is accepted for
a request with chunk size 1000. -/
theorem resolveState_accepts_chunk_size_mismatch_witness :
    (NewState "u" 2000 500 "p").URL = "u"
    ∧ (NewState "u" 2000 500 "p").TotalSize = 2000
    ∧ (NewState "u" 2000 500 "p").ChunkSize ≠ 1000
    ∧ resolveState false (some (NewState "u" 2000 500 "p")) "u" 2000 1000 "p"
        = Except.ok (NewState "u" 2000 500 "p") :=
  ⟨rfl, rfl, by decide,
    resolveState_accepts_chunk_size_mismatch (NewState "u" 2000 500 "p") "u" "p" 2000 1000
      rfl rfl (by decide)⟩

/-! ## C6: an existing complete artifact suppresses all network activity -/

/-- Claim C6: whenever the complete `.part` artifact of a chunk exists on
disk, `downloadChunk` issues no range request at all (for any behaviour of
the network), leaves the disk unchanged and reports success — the chunk is
skipped.  The statement holds for every call, hence for every run, whether
or not the state file records the chunk as completed. -/
theorem downloadChunk_skips_complete (chunk : ChunkInfo) (d : ChunkDisk)
    (fetch : Int → Int → List Nat × Bool) (content : List Nat)
    (h : d.part = some content) :
    downloadChunkAttempt chunk d fetch = { request := none, disk := d, ok := true } := by
  unfold downloadChunkAttempt
  rw [h]

/-- Witness for C6: a complete artifact of chunk `[0, 9]` is skipped. -/
theorem downloadChunk_skips_complete_witness :
    (ChunkDisk.mk none (some [1, 2, 3])).part = some [1, 2, 3]
    ∧ downloadChunkAttempt
        { Index := 0, Start := 0, End := 9, Downloaded := 0,
          Completed := false, PostPartCompleted := false }
        (ChunkDisk.mk none (some [1, 2, 3])) (fun _ _ => ([], true))
      = { request := none, disk := ChunkDisk.mk none (some [1, 2, 3]), ok := true } :=
  ⟨rfl,
    downloadChunk_skips_complete _ _ (fun _ _ => ([], true)) [1, 2, 3] rfl⟩

/-! ## C10: an oversized partial artifact is promoted without a fetch -/

/-- Claim C10: when the `.tmp` artifact already holds at least
`end - start + 1` bytes (possibly more), the resume offset is clamped to
`end + 1`, no fetch is performed, and `Finalize` promotes the `.tmp` file to
the `.part` artifact exactly as it is — without truncating it to the chunk's
byte length. -/
theorem downloadChunk_oversized_tmp_promoted (chunk : ChunkInfo) (cur : List Nat)
    (fetch : Int → Int → List Nat × Bool)
    (hk : chunk.End - chunk.Start + 1 ≤ (cur.length : Int)) :
    resumeOffset chunk (cur.length : Int) = chunk.End + 1
    ∧ downloadChunkAttempt chunk (ChunkDisk.mk (some cur) none) fetch
        = { request := none, disk := { tmp := none, part := some cur }, ok := true } := by
  have hoff : resumeOffset chunk (cur.length : Int) = chunk.End + 1 := by
    unfold resumeOffset
    rw [if_pos (by omega)]
  refine ⟨hoff, ?_⟩
  unfold downloadChunkAttempt
  simp only [Option.getD_some, hoff]
  rw [if_neg (by omega)]

/-- Witness for C10: chunk `[0, 4]` with a 7-byte `.tmp` file gets no fetch
and the 7 bytes are promoted unmodified. -/
theorem downloadChunk_oversized_tmp_promoted_witness :
    ((5 : Int) ≤ (([1, 2, 3, 4, 5, 6, 7] : List Nat).length : Int))
    ∧ downloadChunkAttempt
        { Index := 0, Start := 0, End := 4, Downloaded := 0,
          Completed := false, PostPartCompleted := false }
        (ChunkDisk.mk (some [1, 2, 3, 4, 5, 6, 7]) none) (fun _ _ => ([], true))
      = { request := none, disk := { tmp := none, part := some [1, 2, 3, 4, 5, 6, 7] },
          ok := true } :=
  ⟨by decide,
    (downloadChunk_oversized_tmp_promoted
      { Index := 0, Start := 0, End := 4, Downloaded := 0,
        Completed := false, PostPartCompleted := false }
      [1, 2, 3, 4, 5, 6, 7] (fun _ _ => ([], true)) (by decide)).2⟩

/-! ## C5: resuming fetches exactly the missing suffix of the range -/

/-- Claim C5: when the partial artifact of a chunk holds `k` bytes with
`0 ≤ k ≤ end - start + 1`, the attempt issues a range request for exactly
`[start + k, end]` whenever bytes remain (`k < end - start + 1`), and every
request it could issue starts at `start + k` — no byte of `[start, start+k)`
is ever re-fetched. -/
theorem downloadChunk_resume_request (chunk : ChunkInfo) (cur : List Nat)
    (fetch : Int → Int → List Nat × Bool)
    (hk : (cur.length : Int) ≤ chunk.End - chunk.Start + 1) :
    ((cur.length : Int) < chunk.End - chunk.Start + 1 →
      (downloadChunkAttempt chunk (ChunkDisk.mk (some cur) none) fetch).request
        = some (chunk.Start + (cur.length : Int), chunk.End))
    ∧ (∀ a b : Int,
        (downloadChunkAttempt chunk (ChunkDisk.mk (some cur) none) fetch).request
          = some (a, b) →
        a = chunk.Start + (cur.length : Int) ∧ b = chunk.End) := by
  constructor
  · intro hlt
    have hoff : resumeOffset chunk (cur.length : Int) = chunk.Start + (cur.length : Int) := by
      unfold resumeOffset
      rw [if_neg (by omega)]
    unfold downloadChunkAttempt
    simp only [Option.getD_some, hoff]
    rw [if_pos (by omega)]
    cases hfr : (fetch (chunk.Start + (cur.length : Int)) chunk.End).2 <;> simp [hfr]
  · intro a b hab
    unfold downloadChunkAttempt at hab
    simp only [Option.getD_some] at hab
    by_cases hle : resumeOffset chunk (cur.length : Int) ≤ chunk.End
    · have hoff : resumeOffset chunk (cur.length : Int) = chunk.Start + (cur.length : Int) := by
        unfold resumeOffset at hle ⊢
        split_ifs at hle ⊢ with hgt
        · omega
        · rfl
      rw [if_pos hle] at hab
      rw [hoff] at hab
      cases hfr : (fetch (chunk.Start + (cur.length : Int)) chunk.End).2 <;>
        simp [hfr] at hab <;> exact ⟨hab.1.symm, hab.2.symm⟩
    · rw [if_neg hle] at hab
      simp at hab

/-- Witness for C5: chunk `[10, 19]` with a 4-byte partial artifact requests
exactly `[14, 19]`. -/
theorem downloadChunk_resume_request_witness :
    ((([1, 2, 3, 4] : List Nat).length : Int) ≤ 10)
    ∧ (downloadChunkAttempt
        { Index := 0, Start := 10, End := 19, Downloaded := 0,
          Completed := false, PostPartCompleted := false }
        (ChunkDisk.mk (some [1, 2, 3, 4]) none) (fun _ _ => ([], true))).request
      = some (14, 19) :=
  ⟨by decide,
    (downloadChunk_resume_request
      { Index := 0, Start := 10, End := 19, Downloaded := 0,
        Completed := false, PostPartCompleted := false }
      [1, 2, 3, 4] (fun _ _ => ([], true)) (by decide)).1 (by decide)⟩

/-! ## C8: monotonicity of the per-chunk flags -/

/-- Claim C8 counterexample: `MarkPostPartCompleted` assigns its `success`
argument unconditionally, so a later `markHookComplete(index, false)` reverts
an already-true `hookComplete` flag to false. -/
theorem MarkPostPartCompleted_reverts_hook_flag_cex :
    (chunkAt (MarkPostPartCompleted (NewState "u" 1000 1000 "p") 0 true) 0).PostPartCompleted
      = true
    ∧ (chunkAt
        (MarkPostPartCompleted (MarkPostPartCompleted (NewState "u" 1000 1000 "p") 0 true) 0 false)
        0).PostPartCompleted = false := by
  constructor <;> decide

/-- A single state operation never clears an already-set `Completed` flag. -/
theorem completed_applyOp_monotone (s : State) (op : StateOp) (i : Nat)
    (h : (chunkAt s i).Completed = true) :
    (chunkAt (applyOp s op) i).Completed = true := by
  cases op with
  | markChunk j d =>
    simp only [applyOp, MarkChunkCompleted]
    split_ifs with h1 h2
    · exact h
    · exact h
    · unfold chunkAt at h ⊢
      by_cases hji : j.toNat = i
      · subst hji
        rw [getD_set_self _ _ _ _ (by omega)]
      · rw [getD_set_ne _ _ _ _ _ hji]
        exact h
  | markPostPart j b =>
    simp only [applyOp, MarkPostPartCompleted]
    split_ifs with h1
    · exact h
    · unfold chunkAt at h ⊢
      by_cases hji : j.toNat = i
      · subst hji
        rw [getD_set_self _ _ _ _ (by omega)]
        exact h
      · rw [getD_set_ne _ _ _ _ _ hji]
        exact h
  | updateProgress j d =>
    simp only [applyOp, UpdateChunkProgress]
    split_ifs with h1
    · exact h
    · unfold chunkAt at h ⊢
      by_cases hji : j.toNat = i
      · subst hji
        rw [getD_set_self _ _ _ _ (by omega)]
        exact h
      · rw [getD_set_ne _ _ _ _ _ hji]
        exact h

/-- Claim C8 amended: `transferComplete` is monotone — once a chunk's
`Completed` flag is true, no sequence of state operations
(`MarkChunkCompleted`, `MarkPostPartCompleted`, `UpdateChunkProgress`)
reverts it to false; `hookComplete`, by contrast, is assigned
`markHookComplete`'s `success` argument unconditionally (in particular
`success = false` clears it). -/
theorem completed_flag_monotone (s : State) (ops : List StateOp) (i : Nat)
    (h : (chunkAt s i).Completed = true) (j : Int) (b : Bool)
    (hj0 : 0 ≤ j) (hj1 : j < (s.Chunks.length : Int)) :
    (chunkAt (applyOps s ops) i).Completed = true
    ∧ (chunkAt (MarkPostPartCompleted s j b) j.toNat).PostPartCompleted = b := by
  constructor
  · clear hj0 hj1
    induction ops generalizing s with
    | nil => exact h
    | cons op rest ih =>
      exact ih (applyOp s op) (completed_applyOp_monotone s op i h)
  · unfold MarkPostPartCompleted chunkAt
    rw [if_neg (by omega)]
    rw [getD_set_self _ _ _ _ (by omega)]

/-- Witness for the amended C8 theorem: chunk 0 of a two-chunk state is
marked completed, then stays completed across a progress update and a failed
hook record on chunk 1. -/
theorem completed_flag_monotone_witness :
    (chunkAt (MarkChunkCompleted (NewState "u" 2000 1000 "p") 0 1000) 0).Completed = true
    ∧ (0 : Int) ≤ 1
    ∧ (1 : Int) < ((MarkChunkCompleted (NewState "u" 2000 1000 "p") 0 1000).Chunks.length : Int)
    ∧ (chunkAt
        (applyOps (MarkChunkCompleted (NewState "u" 2000 1000 "p") 0 1000)
          [StateOp.updateProgress 0 7, StateOp.markPostPart 1 false])
        0).Completed = true :=
  ⟨by decide, by decide, by decide,
    (completed_flag_monotone (MarkChunkCompleted (NewState "u" 2000 1000 "p") 0 1000)
      [StateOp.updateProgress 0 7, StateOp.markPostPart 1 false] 0 (by decide) 1 false
      (by decide) (by decide)).1⟩

/-! ## C4: idempotence of `MarkChunkCompleted` and the counter invariant -/

/-- Setting a list slot whose predicate was false to a value satisfying the
predicate raises the `countP` by exactly one. -/
theorem countP_set_true {α : Type} (p : α → Bool) (l : List α) (d : α) :
    ∀ (i : Nat) (x : α), i < l.length → p (l.getD i d) = false → p x = true →
      (l.set i x).countP p = l.countP p + 1 := by
  induction l with
  | nil => intro i x h _ _; simp at h
  | cons a as ih =>
    intro i x h h1 h2
    cases i with
    | zero =>
      simp only [List.getD_cons_zero] at h1
      simp [List.countP_cons, h1, h2]
    | succ n =>
      have h' : n < as.length := by simpa using h
      have h1' : p (as.getD n d) = false := by simpa using h1
      simp only [List.set_cons_succ, List.countP_cons, ih n x h' h1' h2]
      omega

/-- Out-of-bounds indices leave the state unchanged. -/
theorem MarkChunkCompleted_oob (s : State) (i d : Int)
    (h : i < 0 ∨ (s.Chunks.length : Int) ≤ i) : MarkChunkCompleted s i d = s := by
  rw [MarkChunkCompleted, if_pos h]

/-- Marking an already-completed chunk leaves the state unchanged. -/
theorem MarkChunkCompleted_completed (s : State) (i d : Int)
    (h1 : ¬(i < 0 ∨ (s.Chunks.length : Int) ≤ i))
    (h2 : (s.Chunks.getD i.toNat defaultChunk).Completed = true) :
    MarkChunkCompleted s i d = s := by
  rw [MarkChunkCompleted, if_neg h1]
  dsimp only
  rw [if_pos h2]

/-- Marking a not-yet-completed in-bounds chunk sets its flag and bumps the
counter. -/
theorem MarkChunkCompleted_fresh (s : State) (i d : Int)
    (h1 : ¬(i < 0 ∨ (s.Chunks.length : Int) ≤ i))
    (h2 : (s.Chunks.getD i.toNat defaultChunk).Completed = false) :
    MarkChunkCompleted s i d =
      { s with
        Chunks := s.Chunks.set i.toNat
          { s.Chunks.getD i.toNat defaultChunk with Completed := true, Downloaded := d },
        CompletedCount := s.CompletedCount + 1 } := by
  rw [MarkChunkCompleted, if_neg h1]
  dsimp only
  rw [if_neg (by simp only [h2]; simp)]

/-- Marking the same index twice is a no-op: the second call returns the
state the first call produced, unchanged. -/
theorem MarkChunkCompleted_twice (s : State) (i d d2 : Int) :
    MarkChunkCompleted (MarkChunkCompleted s i d) i d2 = MarkChunkCompleted s i d := by
  by_cases h1 : i < 0 ∨ (s.Chunks.length : Int) ≤ i
  · rw [MarkChunkCompleted_oob s i d h1, MarkChunkCompleted_oob s i d2 h1]
  · have hib : i.toNat < s.Chunks.length := by omega
    by_cases h2 : (s.Chunks.getD i.toNat defaultChunk).Completed = true
    · rw [MarkChunkCompleted_completed s i d h1 h2, MarkChunkCompleted_completed s i d2 h1 h2]
    · have h2f : (s.Chunks.getD i.toNat defaultChunk).Completed = false := by
        simpa using h2
      rw [MarkChunkCompleted_fresh s i d h1 h2f]
      apply MarkChunkCompleted_completed
      · simpa using h1
      · dsimp only
        rw [getD_set_self _ _ _ _ hib]

/-- A freshly created state satisfies the counter invariant. -/
theorem stateInv_NewState (u p : String) (t c : Int) : stateInv (NewState u t c p) := by
  unfold stateInv NewState
  simp only []
  rw [List.countP_eq_zero.mpr]
  · rfl
  · intro x hx
    simp only [List.mem_map] at hx
    obtain ⟨i, _, rfl⟩ := hx
    simp

/-- `MarkChunkCompleted` preserves the counter invariant. -/
theorem stateInv_MarkChunkCompleted (s : State) (i d : Int) (h : stateInv s) :
    stateInv (MarkChunkCompleted s i d) := by
  by_cases h1 : i < 0 ∨ (s.Chunks.length : Int) ≤ i
  · rw [MarkChunkCompleted_oob s i d h1]; exact h
  · have hib : i.toNat < s.Chunks.length := by omega
    by_cases h2 : (s.Chunks.getD i.toNat defaultChunk).Completed = true
    · rw [MarkChunkCompleted_completed s i d h1 h2]; exact h
    · have h2f : (s.Chunks.getD i.toNat defaultChunk).Completed = false := by
        simpa using h2
      rw [MarkChunkCompleted_fresh s i d h1 h2f]
      unfold stateInv at h ⊢
      dsimp only
      rw [countP_set_true _ _ _ i.toNat _ hib h2f rfl]
      have hee : List.countP (fun c => c.Completed) s.Chunks
          = List.countP ChunkInfo.Completed s.Chunks := rfl
      push_cast
      omega

/-- The counter invariant survives any sequence of `MarkChunkCompleted`
calls. -/
theorem stateInv_applyMarks (s : State) (ops : List (Int × Int)) (h : stateInv s) :
    stateInv (applyMarks s ops) := by
  induction ops generalizing s with
  | nil => exact h
  | cons q rest ih => exact ih _ (stateInv_MarkChunkCompleted s q.1 q.2 h)

/-- Claim C4: `MarkChunkCompleted` is idempotent — a second call on an index
made complete by the first call changes nothing (`CompletedCount` and every
chunk field included) — and after any sequence of `MarkChunkCompleted` calls
on a freshly created state, `CompletedCount` equals the number of chunks with
`Completed = true`. -/
theorem MarkChunkCompleted_idempotent_and_count (s : State) (i d d2 : Int)
    (u p : String) (t c : Int) (ops : List (Int × Int)) :
    MarkChunkCompleted (MarkChunkCompleted s i d) i d2 = MarkChunkCompleted s i d
    ∧ stateInv (applyMarks (NewState u t c p) ops) :=
  ⟨MarkChunkCompleted_twice s i d d2,
    stateInv_applyMarks _ ops (stateInv_NewState u p t c)⟩

/-! ## C2: exact byte-count enforcement in the range fetcher -/

/-- The streaming loop writes exactly the first `expected - totalRead` bytes
still owed (or the whole remaining body if it is shorter). -/
theorem readLoop_take (e : Nat) :
    ∀ (k : Nat) (b : List Nat) (t : Nat), e - t ≤ k → readLoop e b t = b.take (e - t) := by
  intro k
  induction k with
  | zero =>
    intro b t h
    have hnot : ¬ t < e := by omega
    have hz : e - t = 0 := by omega
    rw [readLoop.eq_def]
    simp [hnot, hz]
  | succ k ih =>
    intro b t h
    rw [readLoop.eq_def]
    by_cases hlt : t < e
    · cases b with
      | nil => simp [hlt]
      | cons x xs =>
        rw [dif_pos hlt]
        dsimp only
        set n := min (min 32768 (e - t)) (xs.length + 1) with hn
        have hn1 : 1 ≤ n := by omega
        have hnle : n ≤ e - t := by omega
        rw [ih ((x :: xs).drop n) (t + n) (by omega)]
        have hnt : e - (t + n) = e - t - n := by omega
        rw [hnt]
        have hsplit : e - t = n + (e - t - n) := by omega
        conv_rhs => rw [hsplit]
        rw [List.take_add]
    · have hz : e - t = 0 := by omega
      simp [hlt, hz]

/-- Whole-loop corollary: starting from zero bytes read, the loop writes
`body.take expected`. -/
theorem readLoop_eq_take (e : Nat) (b : List Nat) : readLoop e b 0 = b.take e := by
  have h := readLoop_take e e b 0 (by omega)
  simpa using h

/-- Claim C2: for a range fetch of `[start, end]` with an accepted status
code, the fetcher writes at most `end - start + 1` bytes to the sink: when
the body carries at least that many bytes the result is `ok` with exactly
`end - start + 1` bytes written (the first ones of the body), and when the
stream ends short the call returns the distinct incomplete-transfer error
instead of silently succeeding. -/
theorem downloadRangeOnce_byte_exact (start endB : Int) (status : Nat) (body : List Nat)
    (hs : status = 206 ∨ status = 200) (hr : start ≤ endB) :
    ((endB - start + 1 ≤ (body.length : Int)) →
        downloadRangeOnce start endB status body
          = Except.ok (body.take (endB - start + 1).toNat)
        ∧ (((body.take (endB - start + 1).toNat).length : Int) = endB - start + 1))
    ∧ (((body.length : Int) < endB - start + 1) →
        downloadRangeOnce start endB status body
          = Except.error (.incompleteTransfer (endB - start + 1) (body.length : Int))) := by
  have hstat : ¬ (status ≠ 206 ∧ status ≠ 200) := by
    rcases hs with h | h <;> simp [h]
  have hcast : (((endB - start + 1).toNat : Nat) : Int) = endB - start + 1 :=
    Int.toNat_of_nonneg (by omega)
  constructor
  · intro hge
    have hmin : min (endB - start + 1).toNat body.length = (endB - start + 1).toNat := by
      omega
    have hlen : ((body.take (endB - start + 1).toNat).length : Int) = endB - start + 1 := by
      rw [List.length_take, hmin, hcast]
    refine ⟨?_, hlen⟩
    unfold downloadRangeOnce
    rw [if_neg hstat]
    dsimp only
    rw [readLoop_eq_take]
    rw [if_neg (by rw [hlen]; simp)]
  · intro hlt
    have hmin : min (endB - start + 1).toNat body.length = body.length := by omega
    unfold downloadRangeOnce
    rw [if_neg hstat]
    dsimp only
    rw [readLoop_eq_take]
    rw [if_pos (by rw [List.length_take, hmin]; omega)]
    rw [List.length_take, hmin]

/-- Witness for C2 at range `[0, 4]` (five expected bytes): a six-byte body
yields `ok` with exactly the first five bytes; a two-byte body yields the
incomplete-transfer error. -/
theorem downloadRangeOnce_byte_exact_witness :
    ((206 = 206 ∨ 206 = 200) ∧ (0 : Int) ≤ 4)
    ∧ downloadRangeOnce 0 4 206 [10, 20, 30, 40, 50, 60] = Except.ok [10, 20, 30, 40, 50]
    ∧ downloadRangeOnce 0 4 206 [10, 20] = Except.error (.incompleteTransfer 5 2) := by
  refine ⟨⟨Or.inl rfl, by decide⟩, ?_, ?_⟩
  · have h := ((downloadRangeOnce_byte_exact 0 4 206 [10, 20, 30, 40, 50, 60]
      (Or.inl rfl) (by decide)).1 (by decide)).1
    rw [h]
    rfl
  · have h := (downloadRangeOnce_byte_exact 0 4 206 [10, 20]
      (Or.inl rfl) (by decide)).2 (by decide)
    rw [h]
    rfl

/-! ## C3: multi-group merge aborts on the first failing group -/

/-- Claim C3 counterexample: with two basename groups `alpha` and `beta` and
a `mergeGroup` that fails on `alpha` but would succeed on `beta` (the oracle
returns `true` for every other name), `Merge` with no explicit output returns
the `alpha` error having merged nothing — the remaining group `beta` is never
merged, so one group's failure does abort the others. -/
theorem merge_multi_group_abort_cex :
    groupFilesByBasename ["alpha.000000.part", "beta.000000.part"]
      = [("alpha", ["alpha.000000.part"]), ("beta", ["beta.000000.part"])]
    ∧ (fun b => !(b == "alpha")) "beta" = true
    ∧ Merge "" (fun b => !(b == "alpha")) ["alpha.000000.part", "beta.000000.part"]
        = ([], some "alpha") := by
  refine ⟨by decide, rfl, by decide⟩

/-- The multi-group loop merges the longest all-successful prefix of the
basename list, and returns the first failing basename as the error. -/
theorem mergeAllLoop_eq (ok : String → Bool) :
    ∀ bs : List String, mergeAllLoop ok bs = (bs.takeWhile ok, (bs.dropWhile ok).head?) := by
  intro bs
  induction bs with
  | nil => rfl
  | cons b rest ih =>
    by_cases hb : ok b
    · simp [mergeAllLoop, List.takeWhile_cons, List.dropWhile_cons, hb, ih]
    · simp [mergeAllLoop, List.takeWhile_cons, List.dropWhile_cons, hb]

/-- Claim C3 amended: when no explicit output is given and the matched
artifacts form at least two basename groups, the groups are processed in
ascending basename order, but merging is NOT failure-isolated: the groups
merged are exactly the longest all-successful prefix of the sorted basename
list, and the first failing group's error aborts the loop, skipping every
remaining group. -/
theorem merge_multi_group_first_failure_aborts (ok : String → Bool) (files : List String)
    (h1 : files ≠ []) (h2 : 2 ≤ (groupFilesByBasename files).length) :
    Merge "" ok files
      = ((sortStrings ((groupFilesByBasename files).map fun g => g.1)).takeWhile ok,
         ((sortStrings ((groupFilesByBasename files).map fun g => g.1)).dropWhile ok).head?) := by
  unfold Merge
  rw [if_neg (by simpa using h1)]
  dsimp only
  rw [if_neg (by simp)]
  rw [if_neg (by omega)]
  rw [if_neg (by omega)]
  exact mergeAllLoop_eq ok _

/-- Witness for the amended C3 theorem: two groups, every merge succeeding,
gives both outputs in sorted order and no error. -/
theorem merge_multi_group_first_failure_aborts_witness :
    (["alpha.000000.part", "beta.000000.part"] : List String) ≠ []
    ∧ 2 ≤ (groupFilesByBasename ["alpha.000000.part", "beta.000000.part"]).length
    ∧ Merge "" (fun _ => true) ["alpha.000000.part", "beta.000000.part"]
        = ((sortStrings ((groupFilesByBasename
              ["alpha.000000.part", "beta.000000.part"]).map fun g => g.1)).takeWhile
                (fun _ => true),
           ((sortStrings ((groupFilesByBasename
              ["alpha.000000.part", "beta.000000.part"]).map fun g => g.1)).dropWhile
                (fun _ => true)).head?) :=
  ⟨by decide, by decide,
    merge_multi_group_first_failure_aborts (fun _ => true)
      ["alpha.000000.part", "beta.000000.part"] (by decide) (by decide)⟩

/-! ## C1: correctness of the chunk plan -/

/-- The number of chunks `NewState` plans. -/
theorem NewState_length (u p : String) (t c : Int) :
    (NewState u t c p).Chunks.length = ((t + c - 1).tdiv c).toNat := by
  simp [NewState]

/-- Closed form of the chunk `NewState` places at position `i`. -/
theorem NewState_chunkAt (u p : String) (t c : Int) (i : Nat)
    (h : i < (NewState u t c p).Chunks.length) :
    chunkAt (NewState u t c p) i =
      { Index := (i : Int), Start := (i : Int) * c,
        End := if (i : Int) * c + c - 1 ≥ t then t - 1 else (i : Int) * c + c - 1,
        Downloaded := 0, Completed := false, PostPartCompleted := false } := by
  rw [NewState_length] at h
  unfold chunkAt NewState
  simp [List.getD_eq_getElem?_getD, List.getElem?_map, List.getElem?_range, h]

/-- Claim C1: for every `totalSize > 0` and `chunkSize > 0` the plan built by
`NewState` has `ceil(totalSize/chunkSize)` chunks (characterized by
`(n-1)*c < t ≤ n*c`); chunk `i` carries index `i` and spans
`[i*c, min((i+1)*c, t) - 1]`; consecutive ranges are contiguous; ranges of
distinct chunks are disjoint and ordered by index; the first range starts at
`0` and the last ends at `t - 1`; every byte of `[0, t-1]` lies in some
chunk; and `t = c` yields exactly one chunk. -/
theorem NewState_chunk_plan (u p : String) (t c : Int) (ht : 0 < t) (hc : 0 < c) :
    0 < (NewState u t c p).Chunks.length
    ∧ (((NewState u t c p).Chunks.length : Int) - 1) * c < t
    ∧ t ≤ ((NewState u t c p).Chunks.length : Int) * c
    ∧ (∀ i : Nat, i < (NewState u t c p).Chunks.length →
        (chunkAt (NewState u t c p) i).Index = (i : Int)
        ∧ (chunkAt (NewState u t c p) i).Start = (i : Int) * c
        ∧ (chunkAt (NewState u t c p) i).End = min (((i : Int) + 1) * c) t - 1)
    ∧ (∀ i : Nat, i + 1 < (NewState u t c p).Chunks.length →
        (chunkAt (NewState u t c p) i).End + 1 = (chunkAt (NewState u t c p) (i + 1)).Start)
    ∧ (∀ i j : Nat, i < j → j < (NewState u t c p).Chunks.length →
        (chunkAt (NewState u t c p) i).End < (chunkAt (NewState u t c p) j).Start)
    ∧ (chunkAt (NewState u t c p) 0).Start = 0
    ∧ (chunkAt (NewState u t c p) ((NewState u t c p).Chunks.length - 1)).End = t - 1
    ∧ (∀ b : Int, 0 ≤ b → b < t →
        ∃ i : Nat, i < (NewState u t c p).Chunks.length
          ∧ (chunkAt (NewState u t c p) i).Start ≤ b
          ∧ b ≤ (chunkAt (NewState u t c p) i).End)
    ∧ (t = c → (NewState u t c p).Chunks.length = 1) := by
  have hc0 : (0 : Int) ≤ c := le_of_lt hc
  have hN : (0 : Int) ≤ t + c - 1 := by omega
  have htd : (t + c - 1).tdiv c = (t + c - 1) / c := Int.tdiv_eq_ediv hN hc0
  have hmod0 : 0 ≤ (t + c - 1) % c := Int.emod_nonneg _ (ne_of_gt hc)
  have hmod1 : (t + c - 1) % c < c := Int.emod_lt_of_pos _ hc
  have hdm : c * ((t + c - 1) / c) + (t + c - 1) % c = t + c - 1 := Int.ediv_add_emod _ _
  have hub : t ≤ c * ((t + c - 1) / c) := by omega
  have hlb : c * ((t + c - 1) / c - 1) < t := by
    have hexp : c * ((t + c - 1) / c - 1) = c * ((t + c - 1) / c) - c := by ring
    omega
  have hQ1 : 1 ≤ (t + c - 1) / c := by
    by_contra hcon
    push_neg at hcon
    have hq0 : (t + c - 1) / c ≤ 0 := by omega
    have : c * ((t + c - 1) / c) ≤ 0 := mul_nonpos_iff.mpr (Or.inl ⟨hc0, hq0⟩)
    omega
  have hlen : (NewState u t c p).Chunks.length = ((t + c - 1) / c).toNat := by
    rw [NewState_length, htd]
  have hlenInt : (((NewState u t c p).Chunks.length : Nat) : Int) = (t + c - 1) / c := by
    rw [hlen]
    exact Int.toNat_of_nonneg (by omega)
  have hformula : ∀ i : Nat, i < (NewState u t c p).Chunks.length →
      (chunkAt (NewState u t c p) i).Index = (i : Int)
      ∧ (chunkAt (NewState u t c p) i).Start = (i : Int) * c
      ∧ (chunkAt (NewState u t c p) i).End = min (((i : Int) + 1) * c) t - 1 := by
    intro i hi
    rw [NewState_chunkAt u p t c i hi]
    refine ⟨rfl, rfl, ?_⟩
    have hmul : ((i : Int) + 1) * c = (i : Int) * c + c := by ring
    rw [hmul]
    dsimp only
    split_ifs with hcase <;> omega
  have hlenpos : 0 < (NewState u t c p).Chunks.length := by omega
  have hcontig : ∀ i : Nat, i + 1 < (NewState u t c p).Chunks.length →
      (chunkAt (NewState u t c p) i).End + 1 = (chunkAt (NewState u t c p) (i + 1)).Start := by
    intro i hi
    obtain ⟨_, _, hEnd⟩ := hformula i (by omega)
    obtain ⟨_, hStart, _⟩ := hformula (i + 1) hi
    rw [hEnd, hStart]
    have hcast : (((i + 1 : Nat)) : Int) = (i : Int) + 1 := by push_cast; ring
    rw [hcast]
    have hiQ : (i : Int) + 1 ≤ (t + c - 1) / c - 1 := by omega
    have hle : ((i : Int) + 1) * c ≤ ((t + c - 1) / c - 1) * c :=
      mul_le_mul_of_nonneg_right hiQ hc0
    have hcomm : ((t + c - 1) / c - 1) * c = c * ((t + c - 1) / c - 1) := mul_comm _ _
    omega
  refine ⟨hlenpos, ?_, ?_, hformula, hcontig, ?_, ?_, ?_, ?_, ?_⟩
  · have hcomm : (((NewState u t c p).Chunks.length : Int) - 1) * c
        = c * ((t + c - 1) / c - 1) := by rw [hlenInt]; ring
    omega
  · have hcomm : ((NewState u t c p).Chunks.length : Int) * c
        = c * ((t + c - 1) / c) := by rw [hlenInt]; ring
    omega
  · intro i j hij hj
    obtain ⟨_, _, hEnd⟩ := hformula i (by omega)
    obtain ⟨_, hStart, _⟩ := hformula j hj
    rw [hEnd, hStart]
    have hle : ((i : Int) + 1) * c ≤ (j : Int) * c :=
      mul_le_mul_of_nonneg_right (by omega) hc0
    have hmul : ((i : Int) + 1) * c = (i : Int) * c + c := by ring
    omega
  · obtain ⟨_, hStart, _⟩ := hformula 0 hlenpos
    rw [hStart]
    simp
  · obtain ⟨_, _, hEnd⟩ := hformula ((NewState u t c p).Chunks.length - 1) (by omega)
    rw [hEnd]
    have hcast : ((((NewState u t c p).Chunks.length - 1 : Nat)) : Int)
        = (t + c - 1) / c - 1 := by omega
    rw [hcast]
    have hmul : ((t + c - 1) / c - 1 + 1) * c = c * ((t + c - 1) / c) := by ring
    rw [hmul]
    omega
  · intro b hb0 hbt
    have hbc0 : 0 ≤ b / c := Int.ediv_nonneg hb0 hc0
    have hcast : (((b / c).toNat : Nat) : Int) = b / c := Int.toNat_of_nonneg hbc0
    have hbQ : b / c < (t + c - 1) / c := by
      rw [Int.ediv_lt_iff_lt_mul hc]
      have hcomm : ((t + c - 1) / c) * c = c * ((t + c - 1) / c) := mul_comm _ _
      omega
    have hib : (b / c).toNat < (NewState u t c p).Chunks.length := by omega
    obtain ⟨_, hStart, hEnd⟩ := hformula (b / c).toNat hib
    refine ⟨(b / c).toNat, hib, ?_, ?_⟩
    · rw [hStart, hcast]
      exact Int.ediv_mul_le b (ne_of_gt hc)
    · rw [hEnd, hcast]
      have hup : b < (b / c + 1) * c := Int.lt_ediv_add_one_mul_self b hc
      omega
  · intro htc
    have h1 : c * ((t + c - 1) / c - 1) < c * 1 := by rw [mul_one]; omega
    have h2 : (t + c - 1) / c - 1 < 1 := (mul_lt_mul_left hc).mp h1
    omega

/-- Witness for C1 at `totalSize = 2500`, `chunkSize = 1000` (three chunks). -/
theorem NewState_chunk_plan_witness :
    (0 : Int) < 2500 ∧ (0 : Int) < 1000
    ∧ 0 < (NewState "u" 2500 1000 "p").Chunks.length
    ∧ (NewState "u" 2500 1000 "p").Chunks.length = 3 :=
  ⟨by decide, by decide,
    (NewState_chunk_plan "u" "p" 2500 1000 (by decide) (by decide)).1, by decide⟩

end Rapel
